import Mathlib

/-!
Verification of the association resolver of the Recipient Scraper
(`pages/2_Recipient_Scraper.py`).

The Python source is shallowly embedded below:

* `normalize_for_matching` — the ordered regex pipeline that canonicalizes a
  display name into a matching key.  Each `re.sub` call is embedded as a
  left-to-right scanner over the character list; the scanners reproduce the
  leftmost-match/greedy semantics of the concrete patterns (which are
  deterministic except for the `-?` option and the month alternation,
  both handled by explicit backtracking).
* `extract_date_from_name` — `re.search` for the day/month/year pattern,
  embedded as a left-to-right search with the regex's backtracking on the
  1-or-2-digit day and on the ordered month alternation, followed by the
  `datetime` calendar-validity check.
* `check_list_exists_in_hubspot` — the HubSpot existence check; the HTTP
  call is abstracted by an `HttpOutcome` argument (status code, or the
  message of a raised exception).
* `get_associations` — the resolver loop.  MongoDB supplies the two input
  lists; the function is embedded as a function of those lists.  The
  `@st.cache_data` memoization wrappers are identity on a fixed snapshot and
  are dropped.  Python float scores are idealized as rationals `ℚ`.
  `matched_list_ids` (a Python `set` used only through membership tests and
  insertions) is embedded as a list with `::` as insertion.
  `list.sort(key=..., reverse=True)` is Python's stable sort run with the
  reversed comparison; a stable sort is uniquely determined by the key
  order, so it is embedded by `List.insertionSort` with the corresponding
  reflexive-total relation (which places earlier elements first on ties,
  exactly as Python's stable sort does).
-/

namespace Scraper

/-! ### Character helpers (Python `\s`, `\d`, `.lower()`) -/

/-- ASCII whitespace class of Python's regex `\s`. -/
def pyWs (c : Char) : Bool :=
  c = ' ' || c = '\t' || c = '\n' || c = '\r' || c = '\x0b' || c = '\x0c'

/-- Python's regex `\d` on ASCII input. -/
def isDigitC (c : Char) : Bool :=
  '0' ≤ c && c ≤ '9'

def digitVal (c : Char) : Nat := c.toNat - '0'.toNat

/-- Case-insensitive literal match: if `pat` (given lowercase) is a prefix of
`l` up to case, return the rest of `l`. -/
def matchCi : List Char → List Char → Option (List Char)
  | [], l => some l
  | _ :: _, [] => none
  | p :: ps, c :: cs => if p.toLower = c.toLower then matchCi ps cs else none

/-- Try an ordered alternation of case-insensitive tokens; on success return
the original characters matched (regex group semantics keep the input's case)
and the rest of the input. -/
def firstCiToken : List (List Char) → List Char → Option (List Char × List Char)
  | [], _ => none
  | t :: ts, l =>
    match matchCi t l with
    | some rest => some (l.take t.length, rest)
    | none => firstCiToken ts l

/-! ### `re.sub` as a scanner

`subScan f fuel l` walks `l` left to right; at each position it tries the
single-match function `f` (which returns the replacement text and the rest of
the input after the match).  All the matchers below consume at least one
character, so `fuel = l.length` always suffices. -/

def subScan (f : List Char → Option (List Char × List Char)) : Nat → List Char → List Char
  | 0, l => l
  | _ + 1, [] => []
  | fuel + 1, c :: rest =>
    match f (c :: rest) with
    | some (repl, rem) => repl ++ subScan f fuel rem
    | none => c :: subScan f fuel rest

/-! ### Normalizer (`normalize_for_matching`) -/

/-- Matcher of `re.sub(r"-\s*Tier\s*\d+\s*-", "-", text, flags=IGNORECASE)`. -/
def tier1Match (l : List Char) : Option (List Char × List Char) :=
  match l with
  | '-' :: r =>
    match matchCi ['t', 'i', 'e', 'r'] (r.dropWhile pyWs) with
    | some r2 =>
      let r3 := r2.dropWhile pyWs
      match r3.takeWhile isDigitC with
      | [] => none
      | _ :: _ =>
        match (r3.dropWhile isDigitC).dropWhile pyWs with
        | '-' :: r5 => some (['-'], r5)
        | _ => none
    | none => none
  | _ => none

/-- Tail `Tier\s*\d+\s*` of the second tier pattern. -/
def tierTail (r : List Char) : Option (List Char) :=
  match matchCi ['t', 'i', 'e', 'r'] r with
  | some r2 =>
    let r3 := r2.dropWhile pyWs
    match r3.takeWhile isDigitC with
    | [] => none
    | _ :: _ => some ((r3.dropWhile isDigitC).dropWhile pyWs)
  | none => none

/-- Matcher of `re.sub(r"\s*-?\s*Tier\s*\d+\s*", " ", text, flags=IGNORECASE)`.
The greedy `-?` is tried with the hyphen first, then without. -/
def tier2Match (l : List Char) : Option (List Char × List Char) :=
  let r1 := l.dropWhile pyWs
  match r1 with
  | '-' :: r2 =>
    match tierTail (r2.dropWhile pyWs) with
    | some rem => some ([' '], rem)
    | none =>
      match tierTail r1 with
      | some rem => some ([' '], rem)
      | none => none
  | _ =>
    match tierTail r1 with
    | some rem => some ([' '], rem)
    | none => none

/-- The twelve three-letter month abbreviations, in the order of the regex
alternation of the day-zero rewrite and of `extract_date_from_name`. -/
def month3Tokens : List (List Char) :=
  [['j','a','n'], ['f','e','b'], ['m','a','r'], ['a','p','r'], ['m','a','y'],
   ['j','u','n'], ['j','u','l'], ['a','u','g'], ['s','e','p'], ['o','c','t'],
   ['n','o','v'], ['d','e','c']]

/-- Matcher of
`re.sub(r'(\s|-)0(\d)\s+(jan|feb|mar|apr|may|jun|jul|aug|sep|oct|nov|dec)', r'\1\2 \3', text, flags=IGNORECASE)`. -/
def zeroMatch (l : List Char) : Option (List Char × List Char) :=
  match l with
  | c1 :: '0' :: d :: r =>
    if (pyWs c1 || c1 = '-') && isDigitC d then
      match r with
      | c2 :: _ =>
        if pyWs c2 then
          match firstCiToken month3Tokens (r.dropWhile pyWs) with
          | some (m, rest) => some (c1 :: d :: ' ' :: m, rest)
          | none => none
        else none
      | [] => none
    else none
  | _ => none

/-- Matcher of `re.sub(r"\s*-\s*-\s*", " - ", text)`. -/
def dhMatch (l : List Char) : Option (List Char × List Char) :=
  match l.dropWhile pyWs with
  | '-' :: r2 =>
    match r2.dropWhile pyWs with
    | '-' :: r4 => some ([' ', '-', ' '], r4.dropWhile pyWs)
    | _ => none
  | _ => none

/-- Does `l` consist entirely of `\s*-\s*` (used for the `$`-anchored trailing
hyphen removal)? -/
def endsWsHyphenWs (l : List Char) : Bool :=
  match l.dropWhile pyWs with
  | '-' :: r => (r.dropWhile pyWs).isEmpty
  | _ => false

/-- `re.sub(r"\s*-\s*$", "", text)`: drop the leftmost suffix made of a
single hyphen surrounded by whitespace. -/
def tailHyphen : List Char → List Char
  | [] => []
  | c :: r => if endsWsHyphenWs (c :: r) then [] else c :: tailHyphen r

/-- `re.sub(r"^\s*-\s*", "", text)`: the pattern is anchored, so at most one
substitution at the start. -/
def headHyphen (l : List Char) : List Char :=
  match l.dropWhile pyWs with
  | '-' :: r => r.dropWhile pyWs
  | _ => l

/-- `re.sub(r"\s+", " ", text)`: collapse every maximal whitespace run to one
space. -/
def collapseWs (l : List Char) : List Char :=
  l.foldr (fun c acc =>
    if pyWs c then (if acc.head? = some ' ' then acc else ' ' :: acc) else c :: acc) []

/-- Python `str.strip()` on ASCII whitespace. -/
def stripList (l : List Char) : List Char :=
  ((l.dropWhile pyWs).reverse.dropWhile pyWs).reverse

/-- `normalize_for_matching` from the source: strip tier markers, drop the
leading zero of a day before a month token, clean up hyphens and whitespace,
lowercase.  The transforms are applied in the source's order. -/
def normalize_for_matching (text : String) : String :=
  if text = "" then ""
  else
    let l0 := text.data
    let l1 := subScan tier1Match l0.length l0
    let l2 := subScan tier2Match l1.length l1
    let l3 := subScan zeroMatch l2.length l2
    let l4 := subScan dhMatch l3.length l3
    let l5 := tailHyphen l4
    let l6 := headHyphen l5
    let l7 := collapseWs l6
    String.mk ((stripList l7).map Char.toLower)

/-! ### Date extractor (`extract_date_from_name`) -/

/-- A calendar date (`datetime` values built by the source always have a zero
time component, so year/month/day is the whole state). -/
structure Date where
  year : Nat
  month : Nat
  day : Nat
deriving DecidableEq, Repr

/-- The month alternation of the search pattern, in regex order, paired with
the values of the `month_names` dictionary. -/
def monthTokens : List (List Char × Nat) :=
  [ (['j','a','n'], 1), (['f','e','b'], 2), (['m','a','r'], 3), (['a','p','r'], 4),
    (['m','a','y'], 5), (['j','u','n'], 6), (['j','u','l'], 7), (['a','u','g'], 8),
    (['s','e','p'], 9), (['o','c','t'], 10), (['n','o','v'], 11), (['d','e','c'], 12),
    (['j','a','n','u','a','r','y'], 1), (['f','e','b','r','u','a','r','y'], 2),
    (['m','a','r','c','h'], 3), (['a','p','r','i','l'], 4),
    (['j','u','n','e'], 6), (['j','u','l','y'], 7), (['a','u','g','u','s','t'], 8),
    (['s','e','p','t','e','m','b','e','r'], 9), (['o','c','t','o','b','e','r'], 10),
    (['n','o','v','e','m','b','e','r'], 11), (['d','e','c','e','m','b','e','r'], 12) ]

/-- `\s+`: require at least one whitespace character, consume the run. -/
def afterWs1 : List Char → Option (List Char)
  | [] => none
  | c :: r => if pyWs c then some (r.dropWhile pyWs) else none

/-- `(\d{4})`: four digits (further digits are simply not part of the group). -/
def fourDigits (l : List Char) : Option Nat :=
  match l with
  | a :: b :: c :: d :: _ =>
    if isDigitC a && isDigitC b && isDigitC c && isDigitC d then
      some (1000 * digitVal a + 100 * digitVal b + 10 * digitVal c + digitVal d)
    else none
  | _ => none

/-- Try the month alternation in regex order; a token only succeeds if the
rest of the pattern (`\s+(\d{4})`) also matches after it. -/
def tryMonthYear : List (List Char × Nat) → List Char → Option (Nat × Nat)
  | [], _ => none
  | (tok, m) :: ts, l =>
    match matchCi tok l with
    | some rest =>
      match afterWs1 rest with
      | some r2 =>
        match fourDigits r2 with
        | some y => some (m, y)
        | none => tryMonthYear ts l
      | none => tryMonthYear ts l
    | none => tryMonthYear ts l

/-- Continue the pattern after the day digits: `\s+` then month then `\s+`
then year. -/
def tryDMY (d : Nat) (rest : List Char) : Option (Nat × Nat × Nat) :=
  match afterWs1 rest with
  | some r2 =>
    match tryMonthYear monthTokens r2 with
    | some (m, y) => some (d, m, y)
    | none => none
  | none => none

/-- Attempt the whole pattern at this exact position.  `\d{1,2}` is greedy:
two digits are tried first, backtracking to one. -/
def tryDateAt (l : List Char) : Option (Nat × Nat × Nat) :=
  match l with
  | a :: r =>
    if isDigitC a then
      match r with
      | b :: r2 =>
        if isDigitC b then
          (tryDMY (10 * digitVal a + digitVal b) r2) <|> tryDMY (digitVal a) r
        else tryDMY (digitVal a) r
      | [] => tryDMY (digitVal a) r
    else none
  | [] => none

/-- `re.search`: leftmost position at which the pattern matches. -/
def searchDate : List Char → Option (Nat × Nat × Nat)
  | [] => none
  | c :: r =>
    match tryDateAt (c :: r) with
    | some dmy => some dmy
    | none => searchDate r

def isLeap (y : Nat) : Bool :=
  (y % 4 = 0 && y % 100 ≠ 0) || y % 400 = 0

def daysInMonth (y m : Nat) : Nat :=
  if m = 2 then (if isLeap y then 29 else 28)
  else if m = 4 || m = 6 || m = 9 || m = 11 then 30
  else 31

/-- `extract_date_from_name` from the source: search for the first
day/month/year occurrence and build a `datetime`; `datetime` raises
(caught, yielding `None`) unless `MINYEAR ≤ year` and the day fits the
month (the matched month token is always a valid 1..12 month). -/
def extract_date_from_name (name : String) : Option Date :=
  if name = "" then none
  else
    match searchDate name.data with
    | some (d, m, y) =>
      if 1 ≤ y ∧ 1 ≤ d ∧ d ≤ daysInMonth y m then some ⟨y, m, d⟩ else none
    | none => none

/-! ### Validation gateway (`check_list_exists_in_hubspot`)

The HTTP call is abstracted by an `HttpOutcome`: either `requests.get`
returned with a status code, or it raised (timeout, transport error, …) with
a message.  The function body is otherwise a direct transcription; every
branch returns, so the embedding is total just as the Python never raises. -/

structure VResult where
  exists_ : Bool
  error : Option String
deriving DecidableEq, Repr

inductive HttpOutcome where
  | status (code : Nat)
  | failureMsg (msg : String)
deriving DecidableEq, Repr

/-- Python truthiness of the `HUBSPOT_ACCESS_TOKEN` environment lookup:
falsy when unset (`None`) or the empty string. -/
def tokenMissing : Option String → Bool
  | none => true
  | some t => t = ""

def check_list_exists_in_hubspot (token : Option String) (list_id : String)
    (response : HttpOutcome) : VResult :=
  if tokenMissing token || list_id = "" then ⟨true, none⟩
  else
    match response with
    | .status code =>
      if code = 200 then ⟨true, none⟩
      else if code = 404 then ⟨false, some "List deleted from HubSpot"⟩
      else ⟨true, some ("API returned " ++ toString code)⟩
    | .failureMsg e => ⟨true, some e⟩

/-! ### Resolver (`get_associations`)

The two MongoDB collections provide the ordered input snapshots; ids and
names are the fields the resolver reads.  The memoized
`check_list_exists_in_hubspot` is passed in as a pure function
`gw : String → VResult` (the 5-minute cache makes it pure within a call). -/

structure EmailRec where
  clonedEmailId : String
  clonedEmailName : String
deriving DecidableEq, Repr

structure ListRec where
  listId : String
  name : String
deriving DecidableEq, Repr

structure Assoc where
  email_name : String
  email_id : String
  list_name : String
  list_id : String
  email_date : Option Date
  list_date : Option Date
  match_score : ℚ
deriving DecidableEq, Repr

structure SkippedList where
  list_name : String
  list_id : String
  email_name : String
  reason : Option String
deriving DecidableEq, Repr

structure ResolveState where
  associations : List Assoc
  matched_list_ids : List String
  skipped_lists : List SkippedList
deriving DecidableEq, Repr

/-- Python substring containment (`a in b`). -/
def isPrefixOfL : List Char → List Char → Bool
  | [], _ => true
  | _ :: _, [] => false
  | a :: as_, b :: bs => a = b && isPrefixOfL as_ bs

def isSubstr : List Char → List Char → Bool
  | a, [] => isPrefixOfL a []
  | a, b :: bs => isPrefixOfL a (b :: bs) || isSubstr a bs

/-- The name-similarity score of the inner loop (lines 236-253 of the
source): 100 on an exact key match; on a one-way containment the length
ratio × 100, kept only when ≥ 95; otherwise 0 (which the `score < 95`
guard then rejects). -/
def nameScore (ek lk : String) : ℚ :=
  if ek = lk then 100
  else if isSubstr ek.data lk.data || isSubstr lk.data ek.data then
    if 0 < min ek.length lk.length then
      if 95 ≤ ((min ek.length lk.length : ℚ) / (max ek.length lk.length : ℚ)) * 100 then
        ((min ek.length lk.length : ℚ) / (max ek.length lk.length : ℚ)) * 100
      else 0
    else 0
  else 0

/-- Score-then-date filter for one (email, list) pair: `none` means the pair
is skipped (`continue`), `some s` is the final score with the +5 same-day
bonus (lines 236-267 of the source). -/
def pairScore (ek lk : String) (ed ld : Option Date) : Option ℚ :=
  if nameScore ek lk < 95 then none
  else if ed.isSome && ld.isSome then
    if ed = ld then some (nameScore ek lk + 5) else none
  else none

/-- The inner `for lst in lists` loop building `matching_lists` for one
email: skip already-consumed ids, skip empty keys, keep pairs accepted by
`pairScore`. -/
def scan_lists (matched : List String) (ek : String) (ed : Option Date) :
    List ListRec → List (ListRec × ℚ)
  | [] => []
  | lst :: rest =>
    if lst.listId ∈ matched then scan_lists matched ek ed rest
    else if normalize_for_matching lst.name = "" then scan_lists matched ek ed rest
    else
      match pairScore ek (normalize_for_matching lst.name) ed
          (extract_date_from_name lst.name) with
      | some s => (lst, s) :: scan_lists matched ek ed rest
      | none => scan_lists matched ek ed rest

def mkAssoc (e : EmailRec) (ed : Option Date) (lst : ListRec) (s : ℚ) : Assoc :=
  { email_name := e.clonedEmailName
    email_id := e.clonedEmailId
    list_name := lst.name
    list_id := lst.listId
    email_date := ed
    list_date := extract_date_from_name lst.name
    match_score := s }

/-- The rejected-list record appended when validation reports not-exists.
`validation_result.get("error", ...)` returns the (always present) `error`
value, so the reason is the gateway's error field. -/
def mkSkipped (gw : String → VResult) (e : EmailRec) (lst : ListRec) : SkippedList :=
  { list_name := lst.name
    list_id := lst.listId
    email_name := e.clonedEmailName
    reason := (gw lst.listId).error }

/-- The `for match in matching_lists` creation loop (lines 275-302): each
candidate either becomes a `skipped_lists` entry (validation enabled and the
gateway reports not-exists) or an association, in which case — and only then —
its id is added to `matched_list_ids`. -/
def processMatches (gw : String → VResult) (validate : Bool) (e : EmailRec)
    (ed : Option Date) : List (ListRec × ℚ) → ResolveState → ResolveState
  | [], st => st
  | (lst, s) :: ms, st =>
    if validate && !(gw lst.listId).exists_ then
      processMatches gw validate e ed ms
        { st with skipped_lists := st.skipped_lists ++ [mkSkipped gw e lst] }
    else
      processMatches gw validate e ed ms
        { st with
          associations := st.associations ++ [mkAssoc e ed lst s]
          matched_list_ids := lst.listId :: st.matched_list_ids }

/-- One iteration of the outer `for email in emails` loop. -/
def processEmail (gw : String → VResult) (validate : Bool) (lists : List ListRec)
    (e : EmailRec) (st : ResolveState) : ResolveState :=
  let ek := normalize_for_matching e.clonedEmailName
  let ed := extract_date_from_name e.clonedEmailName
  if ek = "" then st
  else processMatches gw validate e ed (scan_lists st.matched_list_ids ek ed lists) st

def processEmails (gw : String → VResult) (validate : Bool) (lists : List ListRec) :
    List EmailRec → ResolveState → ResolveState
  | [], st => st
  | e :: es, st => processEmails gw validate lists es (processEmail gw validate lists e st)

/-- The whole matching phase, before the final sort. -/
def resolve_state (gw : String → VResult) (validate : Bool)
    (emails : List EmailRec) (lists : List ListRec) : ResolveState :=
  processEmails gw validate lists emails ⟨[], [], []⟩

/-- `datetime.min`: the minimum representable date. -/
def minDate : Date := ⟨1, 1, 1⟩

/-- The sort key of line 305: the email date, with `datetime.min` for a
missing one. -/
def sortKey (a : Assoc) : Date := a.email_date.getD minDate

/-- `datetime` comparison restricted to dates with a zero time component:
lexicographic on (year, month, day). -/
def dateLe (a b : Date) : Bool :=
  decide (a.year < b.year ∨ (a.year = b.year ∧
    (a.month < b.month ∨ (a.month = b.month ∧ a.day ≤ b.day))))

/-- The relation of the descending stable sort: `a` may stay before `b` iff
the key of `a` is ≥ the key of `b`.  Python's stable `list.sort(key=...,
reverse=True)` is exactly the stable sort by this relation (ties keep input
order, which `List.insertionSort` also guarantees). -/
def assocGe (a b : Assoc) : Prop := dateLe (sortKey b) (sortKey a) = true

instance : DecidableRel assocGe := fun _ _ => instDecidableEqBool _ _

structure ResolveOutput where
  associations : List Assoc
  skipped_lists : List SkippedList
deriving DecidableEq, Repr

/-- `get_associations` from the source: run the matching phase over the two
snapshots, then sort associations by email date, most recent first. -/
def get_associations (gw : String → VResult) (validate : Bool)
    (emails : List EmailRec) (lists : List ListRec) : ResolveOutput :=
  let st := resolve_state gw validate emails lists
  ⟨List.insertionSort assocGe st.associations, st.skipped_lists⟩

/-! ### Concrete fixtures used by witnesses and counterexamples -/

/-- Gateway stub reporting every list as existing. -/
def gwOk : String → VResult := fun _ => ⟨true, none⟩

/-- Gateway stub reporting every list as deleted (the 404 outcome of
`check_list_exists_in_hubspot`). -/
def gwDeleted : String → VResult := fun _ => ⟨false, some "List deleted from HubSpot"⟩

def e1Promo : EmailRec := ⟨"E1", "Promo - Tier 1 - 09 Nov 2025"⟩
def e2Promo : EmailRec := ⟨"E2", "Promo - Tier 2 - 09 Nov 2025"⟩
def s1Promo : ListRec := ⟨"S1", "Promo - 09 Nov 2025"⟩

/-- The rejected-list record the resolver produces for `s1Promo` under
`gwDeleted` when processing `e1Promo`. -/
def skippedPromo : SkippedList :=
  ⟨"Promo - 09 Nov 2025", "S1", "Promo - Tier 1 - 09 Nov 2025",
   some "List deleted from HubSpot"⟩

/-- The association the resolver produces for `e1Promo` and `s1Promo`. -/
def assocPromo : Assoc :=
  ⟨"Promo - Tier 1 - 09 Nov 2025", "E1", "Promo - 09 Nov 2025", "S1",
   some ⟨2025, 11, 9⟩, some ⟨2025, 11, 9⟩, 105⟩

/-! ## Lemmas about the embedded definitions -/

theorem strLength (s : String) : s.length = s.data.length := rfl

theorem dateLe_total (a b : Date) : dateLe a b = true ∨ dateLe b a = true := by
  simp only [dateLe, decide_eq_true_eq]
  omega

theorem dateLe_trans {a b c : Date} (h1 : dateLe a b = true) (h2 : dateLe b c = true) :
    dateLe a c = true := by
  simp only [dateLe, decide_eq_true_eq] at h1 h2 ⊢
  omega

instance : IsTotal Assoc assocGe :=
  ⟨fun a b => dateLe_total (sortKey b) (sortKey a)⟩

instance : IsTrans Assoc assocGe :=
  ⟨fun _ _ _ h1 h2 => dateLe_trans h2 h1⟩

theorem isPrefixOfL_length_le : ∀ {a b : List Char}, isPrefixOfL a b = true →
    a.length ≤ b.length
  | [], _, _ => Nat.zero_le _
  | _ :: _, [], h => by simp [isPrefixOfL] at h
  | a :: as_, b :: bs, h => by
    simp only [isPrefixOfL, Bool.and_eq_true, decide_eq_true_eq] at h
    simpa using Nat.succ_le_succ (isPrefixOfL_length_le h.2)

theorem isPrefixOfL_eq : ∀ {a b : List Char}, isPrefixOfL a b = true →
    a.length = b.length → a = b
  | [], [], _, _ => rfl
  | [], _ :: _, _, hl => by simp at hl
  | _ :: _, [], h, _ => by simp [isPrefixOfL] at h
  | a :: as_, b :: bs, h, hl => by
    simp only [isPrefixOfL, Bool.and_eq_true, decide_eq_true_eq] at h
    simp only [List.length_cons, Nat.succ.injEq] at hl
    rw [h.1, isPrefixOfL_eq h.2 hl]

theorem isSubstr_length_le : ∀ {a b : List Char}, isSubstr a b = true →
    a.length ≤ b.length
  | [], [], _ => Nat.le_refl _
  | _ :: _, [], h => by simp [isSubstr, isPrefixOfL] at h
  | a, b :: bs, h => by
    simp only [isSubstr, Bool.or_eq_true] at h
    rcases h with h | h
    · exact isPrefixOfL_length_le h
    · exact Nat.le_trans (isSubstr_length_le h) (by simp)

theorem isSubstr_eq : ∀ {a b : List Char}, isSubstr a b = true →
    a.length = b.length → a = b
  | [], [], _, _ => rfl
  | _ :: _, [], h, _ => by simp [isSubstr, isPrefixOfL] at h
  | a, b :: bs, h, hl => by
    simp only [isSubstr, Bool.or_eq_true] at h
    rcases h with h | h
    · exact isPrefixOfL_eq h hl
    · have := isSubstr_length_le h
      simp only [List.length_cons] at hl
      omega

/-- Which branch of the inner score computation applies: exact match (100),
accepted containment (the ratio, ≥ 95 and traceably so), or a score the
`< 95` guard will reject. -/
theorem nameScore_cases (ek lk : String) :
    (ek = lk ∧ nameScore ek lk = 100) ∨
    (ek ≠ lk ∧
      nameScore ek lk =
        ((min ek.length lk.length : ℚ) / (max ek.length lk.length : ℚ)) * 100 ∧
      (isSubstr ek.data lk.data || isSubstr lk.data ek.data) = true ∧
      0 < min ek.length lk.length ∧
      95 ≤ nameScore ek lk) ∨
    nameScore ek lk < 95 := by
  unfold nameScore
  split_ifs with h1 h2 h3 h4
  · exact Or.inl ⟨h1, rfl⟩
  · exact Or.inr (Or.inl ⟨h1, rfl, h2, h3, h4⟩)
  · exact Or.inr (Or.inr (by norm_num))
  · exact Or.inr (Or.inr (by norm_num))
  · exact Or.inr (Or.inr (by norm_num))

theorem min_lt_max_of_substr {ek lk : String} (hne : ek ≠ lk)
    (hsub : (isSubstr ek.data lk.data || isSubstr lk.data ek.data) = true) :
    min ek.length lk.length < max ek.length lk.length := by
  have hd : ek.data ≠ lk.data := fun h => hne (String.ext h)
  rw [strLength, strLength]
  simp only [Bool.or_eq_true] at hsub
  rcases hsub with h | h
  · have hle := isSubstr_length_le h
    have hlt : ek.data.length < lk.data.length := by
      rcases Nat.lt_or_ge ek.data.length lk.data.length with hlt | hge
      · exact hlt
      · exact absurd (isSubstr_eq h (Nat.le_antisymm hle hge)) hd
    omega
  · have hle := isSubstr_length_le h
    have hlt : lk.data.length < ek.data.length := by
      rcases Nat.lt_or_ge lk.data.length ek.data.length with hlt | hge
      · exact hlt
      · exact absurd (isSubstr_eq h (Nat.le_antisymm hle hge)) (fun hh => hd hh.symm)
    omega

/-- The containment branch score is strictly below 100. -/
theorem nameScore_lt_100 {ek lk : String} (hne : ek ≠ lk)
    (heq : nameScore ek lk =
      ((min ek.length lk.length : ℚ) / (max ek.length lk.length : ℚ)) * 100)
    (hsub : (isSubstr ek.data lk.data || isSubstr lk.data ek.data) = true)
    (hmin : 0 < min ek.length lk.length) :
    nameScore ek lk < 100 := by
  rw [heq]
  have hmm : min ek.length lk.length < max ek.length lk.length :=
    min_lt_max_of_substr hne hsub
  have hMpos : (0 : ℚ) < (max ek.length lk.length : ℚ) := by
    have : 0 < max ek.length lk.length := Nat.lt_of_lt_of_le hmin (Nat.le_of_lt hmm)
    exact_mod_cast this
  have hratio : ((min ek.length lk.length : ℚ) / (max ek.length lk.length : ℚ)) < 1 := by
    rw [div_lt_one hMpos]
    exact_mod_cast hmm
  calc ((min ek.length lk.length : ℚ) / (max ek.length lk.length : ℚ)) * 100
      < 1 * 100 := by
        exact mul_lt_mul_of_pos_right hratio (by norm_num)
    _ = 100 := one_mul 100

/-- Everything `pairScore` guarantees about an accepted pair. -/
theorem pairScore_some {ek lk : String} {ed ld : Option Date} {s : ℚ}
    (h : pairScore ek lk ed ld = some s) :
    s = nameScore ek lk + 5 ∧ 95 ≤ nameScore ek lk ∧
      ∃ d, ed = some d ∧ ld = some d := by
  unfold pairScore at h
  split_ifs at h with h1 h2 h3
  rcases Option.isSome_iff_exists.mp (Bool.and_eq_true _ _ ▸ h2).1 with ⟨d, hd⟩
  exact ⟨(Option.some.inj h).symm, not_lt.mp h1, d, hd, by rw [← h3, hd]⟩

/-! ### Lemmas about the matching loop -/

/-- A pair kept by the inner scan was not yet consumed and was accepted by
the score/date filter. -/
theorem mem_scan_lists {matched : List String} {ek : String} {ed : Option Date}
    {lists : List ListRec} {lst : ListRec} {s : ℚ}
    (h : (lst, s) ∈ scan_lists matched ek ed lists) :
    lst.listId ∉ matched ∧
    pairScore ek (normalize_for_matching lst.name) ed
      (extract_date_from_name lst.name) = some s := by
  induction lists with
  | nil => simp [scan_lists] at h
  | cons l rest ih =>
    simp only [scan_lists] at h
    split at h
    next => exact ih h
    next hmem =>
      split at h
      next => exact ih h
      next =>
        split at h
        next s2 heq =>
          rcases List.mem_cons.mp h with h1 | h1
          · injection h1 with ha hb
            subst ha; subst hb
            exact ⟨hmem, heq⟩
          · exact ih h1
        next => exact ih h

/-- The ids kept by the scan form a subsequence of the input list ids. -/
theorem scan_lists_ids_sublist (matched : List String) (ek : String) (ed : Option Date)
    (lists : List ListRec) :
    ((scan_lists matched ek ed lists).map (fun p => p.1.listId)).Sublist
      (lists.map ListRec.listId) := by
  induction lists with
  | nil => simp [scan_lists]
  | cons l rest ih =>
    simp only [scan_lists, List.map_cons]
    split
    · exact ih.cons _
    · split
      · exact ih.cons _
      · split
        · rw [List.map_cons]
          exact ih.cons₂ _
        · exact ih.cons _

/-- The creation loop only adds ids to `matched_list_ids`. -/
theorem processMatches_matched_mono (gw : String → VResult) (validate : Bool)
    (e : EmailRec) (ed : Option Date) :
    ∀ (ms : List (ListRec × ℚ)) (st : ResolveState),
      st.matched_list_ids ⊆ (processMatches gw validate e ed ms st).matched_list_ids
  | [], _ => List.Subset.refl _
  | (lst, s) :: ms, st => by
    simp only [processMatches]
    split
    · exact processMatches_matched_mono gw validate e ed ms
        { st with skipped_lists := st.skipped_lists ++ [mkSkipped gw e lst] }
    · exact List.Subset.trans (List.subset_cons_self _ _)
        (processMatches_matched_mono gw validate e ed ms
          { st with associations := st.associations ++ [mkAssoc e ed lst s],
                    matched_list_ids := lst.listId :: st.matched_list_ids })

/-- Invariant: every association's list id is a consumed id. -/
theorem processMatches_sub (gw : String → VResult) (validate : Bool)
    (e : EmailRec) (ed : Option Date) :
    ∀ (ms : List (ListRec × ℚ)) (st : ResolveState),
      (∀ id ∈ st.associations.map Assoc.list_id, id ∈ st.matched_list_ids) →
      ∀ id ∈ (processMatches gw validate e ed ms st).associations.map Assoc.list_id,
        id ∈ (processMatches gw validate e ed ms st).matched_list_ids
  | [], _, hsub => hsub
  | (lst, s) :: ms, st, hsub => by
    simp only [processMatches]
    split
    · exact processMatches_sub gw validate e ed ms _ hsub
    · apply processMatches_sub gw validate e ed ms _
      intro id hid
      rw [List.map_append] at hid
      rcases List.mem_append.mp hid with h | h
      · exact List.mem_cons_of_mem _ (hsub id h)
      · simp only [List.map_cons, List.map_nil, List.mem_singleton, mkAssoc] at h
        subst h
        exact List.mem_cons_self _ _

/-- Invariant: association list ids stay pairwise distinct, provided the
candidates of the current creation loop are fresh and duplicate-free. -/
theorem processMatches_nodup (gw : String → VResult) (validate : Bool)
    (e : EmailRec) (ed : Option Date) :
    ∀ (ms : List (ListRec × ℚ)) (st : ResolveState),
      (∀ p ∈ ms, p.1.listId ∉ st.matched_list_ids) →
      (ms.map (fun p => p.1.listId)).Nodup →
      (∀ id ∈ st.associations.map Assoc.list_id, id ∈ st.matched_list_ids) →
      (st.associations.map Assoc.list_id).Nodup →
      ((processMatches gw validate e ed ms st).associations.map Assoc.list_id).Nodup
  | [], _, _, _, _, hnd => hnd
  | (lst, s) :: ms, st, hfresh, hmsnd, hsub, hnd => by
    have hmsnd' : (lst.listId :: ms.map (fun p => p.1.listId)).Nodup := by
      simpa using hmsnd
    have hfresh0 : lst.listId ∉ st.matched_list_ids :=
      hfresh (lst, s) (List.mem_cons_self _ _)
    simp only [processMatches]
    split
    · exact processMatches_nodup gw validate e ed ms _
        (fun p hp => hfresh p (List.mem_cons_of_mem _ hp))
        (List.nodup_cons.mp hmsnd').2 hsub hnd
    · apply processMatches_nodup gw validate e ed ms _
      · intro p hp hmem
        rcases List.mem_cons.mp hmem with h | h
        · exact (List.nodup_cons.mp hmsnd').1
            (h ▸ List.mem_map_of_mem (fun q => q.1.listId) hp)
        · exact hfresh p (List.mem_cons_of_mem _ hp) h
      · exact (List.nodup_cons.mp hmsnd').2
      · intro id hid
        rw [List.map_append] at hid
        rcases List.mem_append.mp hid with h | h
        · exact List.mem_cons_of_mem _ (hsub id h)
        · simp only [List.map_cons, List.map_nil, List.mem_singleton, mkAssoc] at h
          subst h
          exact List.mem_cons_self _ _
      · rw [List.map_append, List.nodup_append]
        refine ⟨hnd, List.nodup_singleton _, ?_⟩
        intro x hx hx2
        simp only [List.map_cons, List.map_nil, List.mem_singleton, mkAssoc] at hx2
        subst hx2
        exact hfresh0 (hsub _ hx)

/-- With validation on, every skipped entry records a gateway-refuted id and
every consumed id was gateway-confirmed. -/
theorem processMatches_gw (gw : String → VResult)
    (e : EmailRec) (ed : Option Date) :
    ∀ (ms : List (ListRec × ℚ)) (st : ResolveState),
      (∀ s ∈ st.skipped_lists, (gw s.list_id).exists_ = false) →
      (∀ id ∈ st.matched_list_ids, (gw id).exists_ = true) →
      (∀ s ∈ (processMatches gw true e ed ms st).skipped_lists,
        (gw s.list_id).exists_ = false) ∧
      (∀ id ∈ (processMatches gw true e ed ms st).matched_list_ids,
        (gw id).exists_ = true)
  | [], _, hsk, hmt => ⟨hsk, hmt⟩
  | (lst, s) :: ms, st, hsk, hmt => by
    simp only [processMatches]
    split
    next hcond =>
      have hfalse : (gw lst.listId).exists_ = false := by
        simpa using hcond
      refine processMatches_gw gw e ed ms
        { st with skipped_lists := st.skipped_lists ++ [mkSkipped gw e lst] } ?_ hmt
      intro s2 hs2
      rcases List.mem_append.mp hs2 with h | h
      · exact hsk s2 h
      · simp only [List.mem_singleton] at h
        subst h
        simpa [mkSkipped] using hfalse
    next hcond =>
      have htrue : (gw lst.listId).exists_ = true := by
        simpa using hcond
      refine processMatches_gw gw e ed ms
        { st with associations := st.associations ++ [mkAssoc e ed lst s],
                  matched_list_ids := lst.listId :: st.matched_list_ids } hsk ?_
      intro id hid
      rcases List.mem_cons.mp hid with h | h
      · exact h ▸ htrue
      · exact hmt id h

/-- Where an association can come from in the creation loop. -/
theorem processMatches_assoc_origin (gw : String → VResult) (validate : Bool)
    (e : EmailRec) (ed : Option Date) :
    ∀ (ms : List (ListRec × ℚ)) (st : ResolveState) (a : Assoc),
      a ∈ (processMatches gw validate e ed ms st).associations →
      a ∈ st.associations ∨ ∃ lst s, (lst, s) ∈ ms ∧ a = mkAssoc e ed lst s
  | [], _, _, h => Or.inl h
  | (lst, s) :: ms, st, a, h => by
    simp only [processMatches] at h
    split at h
    · rcases processMatches_assoc_origin gw validate e ed ms _ a h with h1 | ⟨l2, s2, hm, he⟩
      · exact Or.inl h1
      · exact Or.inr ⟨l2, s2, List.mem_cons_of_mem _ hm, he⟩
    · rcases processMatches_assoc_origin gw validate e ed ms _ a h with h1 | ⟨l2, s2, hm, he⟩
      · rcases List.mem_append.mp h1 with h2 | h2
        · exact Or.inl h2
        · simp only [List.mem_singleton] at h2
          exact Or.inr ⟨lst, s, List.mem_cons_self _ _, h2⟩
      · exact Or.inr ⟨l2, s2, List.mem_cons_of_mem _ hm, he⟩

/-- With validation off the creation loop never rejects anything. -/
theorem processMatches_skipped_false (gw : String → VResult)
    (e : EmailRec) (ed : Option Date) :
    ∀ (ms : List (ListRec × ℚ)) (st : ResolveState),
      (processMatches gw false e ed ms st).skipped_lists = st.skipped_lists
  | [], _ => rfl
  | (lst, s) :: ms, st => by
    simp only [processMatches, Bool.false_and, Bool.false_eq_true, if_false]
    exact processMatches_skipped_false gw e ed ms _

theorem processEmail_matched_mono (gw : String → VResult) (validate : Bool)
    (lists : List ListRec) (e : EmailRec) (st : ResolveState) :
    st.matched_list_ids ⊆ (processEmail gw validate lists e st).matched_list_ids := by
  simp only [processEmail]
  split
  · exact List.Subset.refl _
  · exact processMatches_matched_mono gw validate e _ _ st

theorem processEmail_sub (gw : String → VResult) (validate : Bool)
    (lists : List ListRec) (e : EmailRec) (st : ResolveState)
    (hsub : ∀ id ∈ st.associations.map Assoc.list_id, id ∈ st.matched_list_ids) :
    ∀ id ∈ (processEmail gw validate lists e st).associations.map Assoc.list_id,
      id ∈ (processEmail gw validate lists e st).matched_list_ids := by
  simp only [processEmail]
  split
  · exact hsub
  · exact processMatches_sub gw validate e _ _ st hsub

theorem processEmail_nodup (gw : String → VResult) (validate : Bool)
    (lists : List ListRec) (e : EmailRec) (st : ResolveState)
    (hl : (lists.map ListRec.listId).Nodup)
    (hsub : ∀ id ∈ st.associations.map Assoc.list_id, id ∈ st.matched_list_ids)
    (hnd : (st.associations.map Assoc.list_id).Nodup) :
    ((processEmail gw validate lists e st).associations.map Assoc.list_id).Nodup := by
  simp only [processEmail]
  split
  · exact hnd
  · refine processMatches_nodup gw validate e _ _ st ?_ ?_ hsub hnd
    · exact fun p hp => (mem_scan_lists hp).1
    · exact (scan_lists_ids_sublist _ _ _ _).nodup hl

theorem processEmail_gw (gw : String → VResult)
    (lists : List ListRec) (e : EmailRec) (st : ResolveState)
    (hsk : ∀ s ∈ st.skipped_lists, (gw s.list_id).exists_ = false)
    (hmt : ∀ id ∈ st.matched_list_ids, (gw id).exists_ = true) :
    (∀ s ∈ (processEmail gw true lists e st).skipped_lists,
      (gw s.list_id).exists_ = false) ∧
    (∀ id ∈ (processEmail gw true lists e st).matched_list_ids,
      (gw id).exists_ = true) := by
  simp only [processEmail]
  split
  · exact ⟨hsk, hmt⟩
  · exact processMatches_gw gw e _ _ st hsk hmt

theorem processEmail_assoc_origin (gw : String → VResult) (validate : Bool)
    (lists : List ListRec) (e : EmailRec) (st : ResolveState) (a : Assoc)
    (h : a ∈ (processEmail gw validate lists e st).associations) :
    a ∈ st.associations ∨ ∃ lst s,
      pairScore (normalize_for_matching e.clonedEmailName)
        (normalize_for_matching lst.name)
        (extract_date_from_name e.clonedEmailName)
        (extract_date_from_name lst.name) = some s ∧
      a = mkAssoc e (extract_date_from_name e.clonedEmailName) lst s := by
  simp only [processEmail] at h
  split at h
  · exact Or.inl h
  · rcases processMatches_assoc_origin gw validate e _ _ st a h with h1 | ⟨lst, s, hm, he⟩
    · exact Or.inl h1
    · exact Or.inr ⟨lst, s, (mem_scan_lists hm).2, he⟩

theorem processEmail_skipped_false (gw : String → VResult)
    (lists : List ListRec) (e : EmailRec) (st : ResolveState) :
    (processEmail gw false lists e st).skipped_lists = st.skipped_lists := by
  simp only [processEmail]
  split
  · rfl
  · exact processMatches_skipped_false gw e _ _ st

theorem processEmails_sub (gw : String → VResult) (validate : Bool)
    (lists : List ListRec) :
    ∀ (es : List EmailRec) (st : ResolveState),
      (∀ id ∈ st.associations.map Assoc.list_id, id ∈ st.matched_list_ids) →
      ∀ id ∈ (processEmails gw validate lists es st).associations.map Assoc.list_id,
        id ∈ (processEmails gw validate lists es st).matched_list_ids
  | [], _, hsub => hsub
  | e :: es, st, hsub => by
    simp only [processEmails]
    exact processEmails_sub gw validate lists es _
      (processEmail_sub gw validate lists e st hsub)

theorem processEmails_nodup (gw : String → VResult) (validate : Bool)
    (lists : List ListRec) (hl : (lists.map ListRec.listId).Nodup) :
    ∀ (es : List EmailRec) (st : ResolveState),
      (∀ id ∈ st.associations.map Assoc.list_id, id ∈ st.matched_list_ids) →
      (st.associations.map Assoc.list_id).Nodup →
      ((processEmails gw validate lists es st).associations.map Assoc.list_id).Nodup
  | [], _, _, hnd => hnd
  | e :: es, st, hsub, hnd => by
    simp only [processEmails]
    exact processEmails_nodup gw validate lists hl es _
      (processEmail_sub gw validate lists e st hsub)
      (processEmail_nodup gw validate lists e st hl hsub hnd)

theorem processEmails_gw (gw : String → VResult) (lists : List ListRec) :
    ∀ (es : List EmailRec) (st : ResolveState),
      (∀ s ∈ st.skipped_lists, (gw s.list_id).exists_ = false) →
      (∀ id ∈ st.matched_list_ids, (gw id).exists_ = true) →
      (∀ s ∈ (processEmails gw true lists es st).skipped_lists,
        (gw s.list_id).exists_ = false) ∧
      (∀ id ∈ (processEmails gw true lists es st).matched_list_ids,
        (gw id).exists_ = true)
  | [], _, hsk, hmt => ⟨hsk, hmt⟩
  | e :: es, st, hsk, hmt => by
    simp only [processEmails]
    have h := processEmail_gw gw lists e st hsk hmt
    exact processEmails_gw gw lists es _ h.1 h.2

theorem processEmails_assoc_origin (gw : String → VResult) (validate : Bool)
    (lists : List ListRec) :
    ∀ (es : List EmailRec) (st : ResolveState) (a : Assoc),
      a ∈ (processEmails gw validate lists es st).associations →
      a ∈ st.associations ∨ ∃ e lst s,
        pairScore (normalize_for_matching e.clonedEmailName)
          (normalize_for_matching lst.name)
          (extract_date_from_name e.clonedEmailName)
          (extract_date_from_name lst.name) = some s ∧
        a = mkAssoc e (extract_date_from_name e.clonedEmailName) lst s
  | [], _, _, h => Or.inl h
  | e :: es, st, a, h => by
    simp only [processEmails] at h
    rcases processEmails_assoc_origin gw validate lists es _ a h with
      h1 | ⟨e2, lst, s, hp, he⟩
    · rcases processEmail_assoc_origin gw validate lists e st a h1 with
        h2 | ⟨lst, s, hp, he⟩
      · exact Or.inl h2
      · exact Or.inr ⟨e, lst, s, hp, he⟩
    · exact Or.inr ⟨e2, lst, s, hp, he⟩

theorem processEmails_skipped_false (gw : String → VResult) (lists : List ListRec) :
    ∀ (es : List EmailRec) (st : ResolveState),
      (processEmails gw false lists es st).skipped_lists = st.skipped_lists
  | [], _ => rfl
  | e :: es, st => by
    simp only [processEmails]
    rw [processEmails_skipped_false gw lists es _,
      processEmail_skipped_false gw lists e st]

/-- Sorting does not change membership. -/
theorem mem_get_associations {gw : String → VResult} {validate : Bool}
    {emails : List EmailRec} {lists : List ListRec} {a : Assoc} :
    a ∈ (get_associations gw validate emails lists).associations ↔
      a ∈ (resolve_state gw validate emails lists).associations := by
  simp [get_associations]

/-- Sorting permutes the association ids. -/
theorem get_associations_ids_perm (gw : String → VResult) (validate : Bool)
    (emails : List EmailRec) (lists : List ListRec) :
    ((get_associations gw validate emails lists).associations.map Assoc.list_id).Perm
      ((resolve_state gw validate emails lists).associations.map Assoc.list_id) :=
  (List.perm_insertionSort assocGe _).map _

/-- Concrete evaluation of the spec's example run (`Rat.add` is irreducible,
so the score arithmetic is discharged by `norm_num` rather than `decide`). -/
theorem promo_run :
    resolve_state gwOk false [e1Promo, e2Promo] [s1Promo] =
      ⟨[assocPromo], ["S1"], []⟩ := by
  have hek1 : normalize_for_matching "Promo - Tier 1 - 09 Nov 2025" =
      "promo - 9 nov 2025" := by decide
  have hek2 : normalize_for_matching "Promo - Tier 2 - 09 Nov 2025" =
      "promo - 9 nov 2025" := by decide
  have heks : normalize_for_matching "Promo - 09 Nov 2025" =
      "promo - 9 nov 2025" := by decide
  have hd1 : extract_date_from_name "Promo - Tier 1 - 09 Nov 2025" =
      some ⟨2025, 11, 9⟩ := by decide
  have hd2 : extract_date_from_name "Promo - Tier 2 - 09 Nov 2025" =
      some ⟨2025, 11, 9⟩ := by decide
  have hds : extract_date_from_name "Promo - 09 Nov 2025" =
      some ⟨2025, 11, 9⟩ := by decide
  have hscore : nameScore "promo - 9 nov 2025" "promo - 9 nov 2025" = 100 := by
    simp [nameScore]
  have hne : ("promo - 9 nov 2025" : String) ≠ "" := by decide
  simp only [resolve_state, processEmails, processEmail, e1Promo, e2Promo, s1Promo,
    hek1, hek2, hd1, hd2]
  norm_num [scan_lists, heks, hds, pairScore, hscore, hne, processMatches, mkAssoc,
    assocPromo, gwOk]

/-- The sorted output of the example run is the single example association. -/
theorem promo_assocs :
    (get_associations gwOk false [e1Promo, e2Promo] [s1Promo]).associations =
      [assocPromo] := by
  simp only [get_associations]
  rw [promo_run]
  simp

/-! ## Claim theorems -/

/-- C1 (amended): with validation enabled, every rejected-segment entry comes
from a gateway whose answer for that id is not-exists; the rejected id never
enters `matched_list_ids` (the consumed set) and never appears in any
association of the call.  Contrary to the original claim's final clause, the
id is NOT marked consumed — the counterexample shows the next campaign
re-checks the deleted segment and emits its own rejection entry. -/
theorem C1_rejected_segment_not_consumed (gw : String → VResult)
    (emails : List EmailRec) (lists : List ListRec) (s : SkippedList)
    (hs : s ∈ (get_associations gw true emails lists).skipped_lists) :
    (gw s.list_id).exists_ = false ∧
    s.list_id ∉ (resolve_state gw true emails lists).matched_list_ids ∧
    s.list_id ∉ (get_associations gw true emails lists).associations.map Assoc.list_id := by
  have hgw := processEmails_gw gw lists emails ⟨[], [], []⟩
    (by intro x hx; simp at hx) (by intro x hx; simp at hx)
  have hsk : s ∈ (resolve_state gw true emails lists).skipped_lists := hs
  have h1 : (gw s.list_id).exists_ = false := hgw.1 s hsk
  have h2 : s.list_id ∉ (resolve_state gw true emails lists).matched_list_ids := by
    intro hmem
    have h3 := hgw.2 s.list_id hmem
    rw [h3] at h1
    exact Bool.noConfusion h1
  refine ⟨h1, h2, fun hmem => ?_⟩
  have hmem2 : s.list_id ∈
      (resolve_state gw true emails lists).associations.map Assoc.list_id :=
    (get_associations_ids_perm gw true emails lists).mem_iff.mp hmem
  exact h2 (processEmails_sub gw true lists emails ⟨[], [], []⟩
    (by intro x hx; simp at hx) s.list_id hmem2)

/-- C1 counterexample: under a gateway reporting the segment deleted, the
consumed set stays empty and BOTH campaigns emit a rejection for the same
segment id — refuting the claim that the id is added to `consumedSegments`
so that no later campaign can claim it. -/
theorem C1_counterexample :
    (resolve_state gwDeleted true [e1Promo, e2Promo] [s1Promo]).matched_list_ids = [] ∧
    (resolve_state gwDeleted true [e1Promo, e2Promo] [s1Promo]).skipped_lists.map
      SkippedList.list_id = ["S1", "S1"] := by
  decide

/-- C1 witness: the amended theorem applied to the concrete deleted-segment
run. -/
theorem C1_witness :
    (gwDeleted skippedPromo.list_id).exists_ = false ∧
    skippedPromo.list_id ∉
      (resolve_state gwDeleted true [e1Promo, e2Promo] [s1Promo]).matched_list_ids ∧
    skippedPromo.list_id ∉
      (get_associations gwDeleted true [e1Promo, e2Promo] [s1Promo]).associations.map
        Assoc.list_id :=
  C1_rejected_segment_not_consumed gwDeleted [e1Promo, e2Promo] [s1Promo]
    skippedPromo (by decide)

/-- C2 (amended): provided the segment snapshot has pairwise-distinct ids (a
database snapshot does), each segment id appears in at most one association
of a resolve call, while a campaign id may appear in many; on the spec's
concrete example the single segment goes to the first campaign E1 and no
association involves E2. -/
theorem C2_segment_uniqueness :
    (∀ (gw : String → VResult) (validate : Bool) (emails : List EmailRec)
      (lists : List ListRec), (lists.map ListRec.listId).Nodup →
      ((get_associations gw validate emails lists).associations.map Assoc.list_id).Nodup) ∧
    (get_associations gwOk false [e1Promo, e2Promo] [s1Promo]).associations.map
      (fun a => (a.email_id, a.list_id)) = [("E1", "S1")] := by
  constructor
  · intro gw validate emails lists hl
    have hnd := processEmails_nodup gw validate lists hl emails ⟨[], [], []⟩
      (by intro x hx; simp at hx) (by simp)
    exact (get_associations_ids_perm gw validate emails lists).nodup_iff.mpr hnd
  · decide

/-- C2 counterexample: if the input segment list repeats an id, the creation
loop does not re-check consumption within one campaign, so the id appears in
two associations — the unrestricted "for every pair of input record lists"
claim fails. -/
theorem C2_counterexample :
    (get_associations gwOk false [e1Promo] [s1Promo, s1Promo]).associations.map
      Assoc.list_id = ["S1", "S1"] ∧
    ¬ ((get_associations gwOk false [e1Promo] [s1Promo, s1Promo]).associations.map
      Assoc.list_id).Nodup := by
  decide

/-- C2 witness: the amended theorem applied to the concrete example. -/
theorem C2_witness :
    ((get_associations gwOk false [e1Promo, e2Promo] [s1Promo]).associations.map
      Assoc.list_id).Nodup :=
  C2_segment_uniqueness.1 gwOk false [e1Promo, e2Promo] [s1Promo] (by decide)

/-- C3: every association produced by a resolve call carries names from
which the very same calendar date is extracted; a pair with a missing date
on either side, or with different extracted days, yields no association. -/
theorem C3_same_extracted_date (gw : String → VResult) (validate : Bool)
    (emails : List EmailRec) (lists : List ListRec) (a : Assoc)
    (ha : a ∈ (get_associations gw validate emails lists).associations) :
    ∃ d : Date, extract_date_from_name a.email_name = some d ∧
      extract_date_from_name a.list_name = some d := by
  have ha2 := mem_get_associations.mp ha
  rcases processEmails_assoc_origin gw validate lists emails ⟨[], [], []⟩ a ha2 with
    h | ⟨e, lst, s, hp, he⟩
  · simp at h
  · rcases (pairScore_some hp).2.2 with ⟨d, hed, hld⟩
    subst he
    exact ⟨d, by simpa [mkAssoc] using hed, by simpa [mkAssoc] using hld⟩

/-- C3 witness: the theorem applied to the association of the concrete
example run. -/
theorem C3_witness :
    ∃ d : Date, extract_date_from_name assocPromo.email_name = some d ∧
      extract_date_from_name assocPromo.list_name = some d :=
  C3_same_extracted_date gwOk false [e1Promo, e2Promo] [s1Promo] assocPromo
    (by rw [promo_assocs]; exact List.mem_cons_self _ _)

/-- C4: every association's score is base + 5 with 95 ≤ base: base = 100 on
an exact normalized-key match (score exactly 105), or the length ratio × 100
(< 100) on a containment match, so the score lies in [100, 105], the bonus
is never clamped, and no pair with base below 95 is associated. -/
theorem C4_score_range (gw : String → VResult) (validate : Bool)
    (emails : List EmailRec) (lists : List ListRec) (a : Assoc)
    (ha : a ∈ (get_associations gw validate emails lists).associations) :
    100 ≤ a.match_score ∧ a.match_score ≤ 105 ∧
    ∃ base : ℚ, a.match_score = base + 5 ∧ 95 ≤ base ∧
      ((normalize_for_matching a.email_name = normalize_for_matching a.list_name ∧
        base = 100 ∧ a.match_score = 105) ∨
       (normalize_for_matching a.email_name ≠ normalize_for_matching a.list_name ∧
        base = ((min (normalize_for_matching a.email_name).length
            (normalize_for_matching a.list_name).length : ℚ) /
          (max (normalize_for_matching a.email_name).length
            (normalize_for_matching a.list_name).length : ℚ)) * 100 ∧
        base < 100 ∧ a.match_score < 105)) := by
  have ha2 := mem_get_associations.mp ha
  rcases processEmails_assoc_origin gw validate lists emails ⟨[], [], []⟩ a ha2 with
    h | ⟨e, lst, s, hp, he⟩
  · simp at h
  · obtain ⟨hs, hge, -⟩ := pairScore_some hp
    subst he
    simp only [mkAssoc]
    rcases nameScore_cases (normalize_for_matching e.clonedEmailName)
        (normalize_for_matching lst.name) with
      ⟨heql, h100⟩ | ⟨hne, heq, hsub2, hmin, h95⟩ | hlt
    · refine ⟨by rw [hs, h100]; norm_num, by rw [hs, h100]; norm_num,
        100, by rw [hs, h100], by norm_num,
        Or.inl ⟨heql, rfl, by rw [hs, h100]; norm_num⟩⟩
    · have hlt100 := nameScore_lt_100 hne heq hsub2 hmin
      refine ⟨by rw [hs]; linarith, by rw [hs]; linarith,
        nameScore (normalize_for_matching e.clonedEmailName)
          (normalize_for_matching lst.name), hs, hge,
        Or.inr ⟨hne, heq, hlt100, by rw [hs]; linarith⟩⟩
    · exact absurd hge (not_le.mpr hlt)

/-- C4 witness: the theorem applied to the association of the concrete
example run. -/
theorem C4_witness :
    100 ≤ assocPromo.match_score ∧ assocPromo.match_score ≤ 105 ∧
    ∃ base : ℚ, assocPromo.match_score = base + 5 ∧ 95 ≤ base ∧
      ((normalize_for_matching assocPromo.email_name =
          normalize_for_matching assocPromo.list_name ∧
        base = 100 ∧ assocPromo.match_score = 105) ∨
       (normalize_for_matching assocPromo.email_name ≠
          normalize_for_matching assocPromo.list_name ∧
        base = ((min (normalize_for_matching assocPromo.email_name).length
            (normalize_for_matching assocPromo.list_name).length : ℚ) /
          (max (normalize_for_matching assocPromo.email_name).length
            (normalize_for_matching assocPromo.list_name).length : ℚ)) * 100 ∧
        base < 100 ∧ assocPromo.match_score < 105)) :=
  C4_score_range gwOk false [e1Promo, e2Promo] [s1Promo] assocPromo
    (by rw [promo_assocs]; exact List.mem_cons_self _ _)

/-- C5 (amended): `normalize` is not idempotent for all strings — each
application collapses only one hyphen pair of a longer run (see the
counterexample), so a third application of the counterexample input equals
the second; on the system's name shapes (the spec's examples) one
application is already a fixpoint. -/
theorem C5_idempotent_on_examples :
    normalize_for_matching (normalize_for_matching "Promo - Tier 1 - 09 Nov 2025") =
      normalize_for_matching "Promo - Tier 1 - 09 Nov 2025" ∧
    normalize_for_matching (normalize_for_matching "Promo - Tier 2 - 09 Nov 2025") =
      normalize_for_matching "Promo - Tier 2 - 09 Nov 2025" ∧
    normalize_for_matching (normalize_for_matching "Promo - 9 Nov 2025") =
      normalize_for_matching "Promo - 9 Nov 2025" ∧
    normalize_for_matching (normalize_for_matching "Campaign - 09 Nov 2025") =
      normalize_for_matching "Campaign - 09 Nov 2025" ∧
    normalize_for_matching (normalize_for_matching (normalize_for_matching "a - - - b")) =
      normalize_for_matching (normalize_for_matching "a - - - b") := by
  decide

/-- C5 counterexample: a run of three hyphen separators collapses by one
pair per application, so `normalize` is not idempotent. -/
theorem C5_counterexample :
    normalize_for_matching (normalize_for_matching "a - - - b") ≠
      normalize_for_matching "a - - - b" := by
  decide

/-- C6 (amended): the day-zero rewrite of step (2) fires only when the zero
is immediately preceded by a whitespace or hyphen character (the regex group
`(\s|-)`); with such a predecessor it rewrites, at the start of the string it
does not. -/
theorem C6_zero_rewrite :
    normalize_for_matching "Campaign - 01 Dec 2025" = "campaign - 1 dec 2025" ∧
    normalize_for_matching "x 01 Dec 2025" = "x 1 dec 2025" ∧
    normalize_for_matching "a-01 dec 2025" = "a-1 dec 2025" ∧
    normalize_for_matching "01 Dec 2025" = "01 dec 2025" := by
  decide

/-- C6 counterexample: "01 Dec 2025" has a single leading zero on a 1–9 day
immediately preceding a month abbreviation, yet `normalize` keeps the zero
because nothing precedes it — refuting "for every input name". -/
theorem C6_counterexample :
    normalize_for_matching "01 Dec 2025" = "01 dec 2025" ∧
    normalize_for_matching "01 Dec 2025" ≠ "1 dec 2025" := by
  decide

/-- C7: `extract` parses the first left-to-right day/month/year occurrence
(1–2 digit day, 3-letter or full month name, case-insensitive, 4-digit year)
and yields none when the first occurrence is an invalid calendar date or when
there is no occurrence; the spec's examples and the first-match-only,
full-month-name, case-folding and leap-year behaviors, concretely. -/
theorem C7_extract_examples :
    extract_date_from_name "Campaign - 09 Nov 2025" = some ⟨2025, 11, 9⟩ ∧
    extract_date_from_name "Campaign - 31 Feb 2025" = none ∧
    extract_date_from_name "A 31 Feb 2025 B 09 Nov 2025" = none ∧
    extract_date_from_name "A 1 Jan 2024 and 2 Feb 2025" = some ⟨2024, 1, 1⟩ ∧
    extract_date_from_name "Campaign - 09 November 2025" = some ⟨2025, 11, 9⟩ ∧
    extract_date_from_name "x 09 NOV 2025" = some ⟨2025, 11, 9⟩ ∧
    extract_date_from_name "29 Feb 2024" = some ⟨2024, 2, 29⟩ ∧
    extract_date_from_name "29 Feb 2025" = none ∧
    extract_date_from_name "no date here" = none := by
  decide

/-- C8: the returned associations are pairwise sorted by email date
descending under the `datetime.min` default for a missing date; since
`sortKey` maps a missing date to the minimum, every date-less association
sorts after all associations with a later date. -/
theorem C8_sorted_descending (gw : String → VResult) (validate : Bool)
    (emails : List EmailRec) (lists : List ListRec) :
    ((get_associations gw validate emails lists).associations).Pairwise assocGe :=
  List.sorted_insertionSort assocGe _

/-- C9: the existence check is fail-open and total: a missing credential or
empty id short-circuits to exists with no error (whatever the network would
say); 200 → exists; 404 → not-exists with the deletion reason; any other
status code or a raised transport error/timeout → exists with an advisory
error string. -/
theorem C9_gateway_fail_open (token : Option String) (list_id : String)
    (response : HttpOutcome) :
    (tokenMissing token = true ∨ list_id = "" →
      check_list_exists_in_hubspot token list_id response = ⟨true, none⟩) ∧
    (tokenMissing token = false → list_id ≠ "" →
      (response = .status 200 →
        check_list_exists_in_hubspot token list_id response = ⟨true, none⟩) ∧
      (response = .status 404 →
        check_list_exists_in_hubspot token list_id response =
          ⟨false, some "List deleted from HubSpot"⟩) ∧
      (∀ code, code ≠ 200 → code ≠ 404 → response = .status code →
        check_list_exists_in_hubspot token list_id response =
          ⟨true, some ("API returned " ++ toString code)⟩) ∧
      (∀ msg, response = .failureMsg msg →
        check_list_exists_in_hubspot token list_id response = ⟨true, some msg⟩)) := by
  constructor
  · intro h
    have hc : (tokenMissing token || list_id = "") = true := by
      rcases h with h | h <;> simp [h]
    simp [check_list_exists_in_hubspot, hc]
  · intro h1 h2
    have hc : ¬ ((tokenMissing token || list_id = "") = true) := by
      simp [h1, h2]
    refine ⟨fun hr => ?_, fun hr => ?_, fun code hne200 hne404 hr => ?_,
      fun msg hr => ?_⟩
    · subst hr; simp [check_list_exists_in_hubspot, hc]
    · subst hr; simp [check_list_exists_in_hubspot, hc]
    · subst hr; simp [check_list_exists_in_hubspot, hc, hne200, hne404]
    · subst hr; simp [check_list_exists_in_hubspot, hc]

/-- C9 witness: the theorem evaluated at a concrete inconclusive status. -/
theorem C9_witness :
    check_list_exists_in_hubspot (some "token") "123" (.status 500) =
      ⟨true, some ("API returned " ++ toString 500)⟩ :=
  ((C9_gateway_fail_open (some "token") "123" (.status 500)).2 (by decide)
    (by decide)).2.2.1 500 (by decide) (by decide) rfl

/-- C10: with validation disabled the rejected-segments list of a resolve
call is empty: only the external existence check ever produces rejection
entries; name-mismatch, empty-key and date-mismatch filtering silently skip
the pair. -/
theorem C10_no_rejections_without_validation (gw : String → VResult)
    (emails : List EmailRec) (lists : List ListRec) :
    (get_associations gw false emails lists).skipped_lists = [] :=
  processEmails_skipped_false gw lists emails ⟨[], [], []⟩

end Scraper
